import Mathlib

/-!
Verification of the RDB decoding core of redis-port (`pkg/rdb/cgo_redis.go`).

The Go file under verification is a cgo binding layer: the byte-level codec
(`redisRioLoadLen`, `redisObjectCreateDumpPayload`, `redisObjectDecodeFromPayload`,
the collection iterators) lives in C sources that are not part of the examined
slice.  Where a claim is decided by that missing C code, the corresponding
definition below is modelled from the specification (doc comment starting
`Modelled from the spec:`); the Go wrapper code that is present is translated
directly.

Bytes are modelled as `Nat` (values < 256 where produced by an encoder);
byte strings as `List Nat`; fallible operations return `Except RdbErr`.
-/

/-- The terminal error kinds of the decoding core (spec §7). -/
inductive RdbErr where
  | unexpectedEOF
  | corruptedPayload
  | unsupportedType
  | unsupportedEncoding
  | unsupportedVersion
deriving DecidableEq, Repr

deriving instance DecidableEq for Except

/-- Big-endian encoding of `n` into `k` bytes (most significant first). -/
def beBytes : Nat → Nat → List Nat
  | 0, _ => []
  | k + 1, n => n / 256 ^ k % 256 :: beBytes k n

/-- Big-endian decoding of a byte list. -/
def beDecode (l : List Nat) : Nat :=
  l.foldl (fun acc b => acc * 256 + b) 0

/-- Little-endian encoding of `n` into `k` bytes (least significant first). -/
def leBytes : Nat → Nat → List Nat
  | 0, _ => []
  | k + 1, n => n % 256 :: leBytes k (n / 256)

/-- Little-endian decoding of a byte list. -/
def leDecode : List Nat → Nat
  | [] => 0
  | b :: t => b + 256 * leDecode t

theorem length_beBytes (k n : Nat) : (beBytes k n).length = k := by
  induction k generalizing n with
  | zero => rfl
  | succ k ih => simp [beBytes, ih]

theorem length_leBytes (k n : Nat) : (leBytes k n).length = k := by
  induction k generalizing n with
  | zero => rfl
  | succ k ih => simp [leBytes, ih]

theorem beDecode_aux (l : List Nat) (a : Nat) :
    l.foldl (fun acc b => acc * 256 + b) a = a * 256 ^ l.length + beDecode l := by
  induction l generalizing a with
  | nil => simp [beDecode]
  | cons b t ih =>
    simp only [List.foldl_cons, beDecode] at *
    rw [ih, ih (0 * 256 + b)]
    ring_nf
    rw [List.length_cons, pow_succ]
    ring

theorem beDecode_cons (b : Nat) (l : List Nat) :
    beDecode (b :: l) = b * 256 ^ l.length + beDecode l := by
  have h : beDecode (b :: l) = l.foldl (fun acc x => acc * 256 + x) (0 * 256 + b) := rfl
  rw [h, beDecode_aux]
  ring

theorem beDecode_beBytes (k n : Nat) : beDecode (beBytes k n) = n % 256 ^ k := by
  induction k generalizing n with
  | zero => simp [beBytes, beDecode, Nat.mod_one]
  | succ k ih =>
    rw [beBytes, beDecode_cons, length_beBytes, ih, pow_succ, Nat.mod_mul]
    ring

theorem leDecode_leBytes (k n : Nat) : leDecode (leBytes k n) = n % 256 ^ k := by
  induction k generalizing n with
  | zero => simp [leBytes, leDecode, Nat.mod_one]
  | succ k ih =>
    simp only [leBytes, leDecode]
    rw [ih]
    have h : n % (256 * 256 ^ k) = n % 256 + 256 * (n / 256 % 256 ^ k) := Nat.mod_mul
    rw [pow_succ, mul_comm (256 ^ k) 256, h]

/-- A decoded RDB length (spec §3): either a plain unsigned count or a tagged
"special encoding" whose 6-bit tag identifies int8/int16/int32/LZF. -/
inductive Length where
  | len (n : Nat)
  | special (tag : Nat)
deriving DecidableEq, Repr

/-- Modelled from the spec: the C function `rdbSaveLen` behind
`redisObjectCreateDumpPayload` (not in the examined slice).  Encodes a length
`n` with a 1-byte prefix whose top two bits select the size class:
`00` 6-bit inline, `01` 14-bit (1 extra byte), byte `0x80` 32-bit (4 extra
bytes, big-endian), byte `0x81` 64-bit (8 extra bytes, big-endian). -/
def rdbSaveLen (n : Nat) : List Nat :=
  if n < 64 then [n]
  else if n < 16384 then [64 + n / 256, n % 256]
  else if n < 2 ^ 32 then 128 :: beBytes 4 n
  else 129 :: beBytes 8 n

/-- Modelled from the spec: the C function `rdbLoadLen` behind
`redisRioLoadLen` (not in the examined slice).  Reads a 1-byte prefix; the top
two bits select 6-bit inline (`00`), 14-bit (`01`), 32/64-bit big-endian
(`10`, distinguished by the full byte `0x80`/`0x81`), or a special encoding
(`11`, remaining 6 bits are the tag).  Fails with `unexpectedEOF` on
truncation and `unsupportedEncoding` on an unrecognized `10`-class byte. -/
def rdbLoadLen : List Nat → Except RdbErr (Length × List Nat)
  | [] => .error .unexpectedEOF
  | b :: rest =>
    if b / 64 = 0 then .ok (.len (b % 64), rest)
    else if b / 64 = 1 then
      match rest with
      | [] => .error .unexpectedEOF
      | b2 :: rest' => .ok (.len (b % 64 * 256 + b2), rest')
    else if b / 64 = 3 then .ok (.special (b % 64), rest)
    else if b = 128 then
      if 4 ≤ rest.length then .ok (.len (beDecode (rest.take 4)), rest.drop 4)
      else .error .unexpectedEOF
    else if b = 129 then
      if 8 ≤ rest.length then .ok (.len (beDecode (rest.take 8)), rest.drop 8)
      else .error .unexpectedEOF
    else .error .unsupportedEncoding

/-- The size class selected by a length encoding, per its first byte. -/
inductive LenClass where
  | bits6
  | bits14
  | bits32
  | bits64
  | special
deriving DecidableEq, Repr

/-- The size class the decoder selects from the 1-byte prefix `b`. -/
def lenClassOf (b : Nat) : Option LenClass :=
  if b / 64 = 0 then some .bits6
  else if b / 64 = 1 then some .bits14
  else if b / 64 = 3 then some .special
  else if b = 128 then some .bits32
  else if b = 129 then some .bits64
  else none

theorem take_append_of_length_eq {l r : List Nat} {k : Nat} (h : l.length = k) :
    (l ++ r).take k = l := by
  subst h
  rw [List.take_left]

theorem drop_append_of_length_eq {l r : List Nat} {k : Nat} (h : l.length = k) :
    (l ++ r).drop k = r := by
  subst h
  rw [List.drop_left]

theorem rdbLoadLen_rdbSaveLen (n : Nat) (hn : n < 2 ^ 64) (rest : List Nat) :
    rdbLoadLen (rdbSaveLen n ++ rest) = .ok (.len n, rest) := by
  unfold rdbSaveLen
  by_cases h1 : n < 64
  · rw [if_pos h1]
    show rdbLoadLen (n :: rest) = _
    simp [rdbLoadLen, Nat.div_eq_of_lt h1, Nat.mod_eq_of_lt h1]
  · rw [if_neg h1]
    by_cases h2 : n < 16384
    · rw [if_pos h2]
      have hb : (64 + n / 256) / 64 = 1 := by omega
      have hb0 : ¬(64 + n / 256) / 64 = 0 := by omega
      show rdbLoadLen ((64 + n / 256) :: (n % 256) :: rest) = _
      simp only [rdbLoadLen]
      rw [if_neg hb0, if_pos hb]
      have hm : (64 + n / 256) % 64 = n / 256 := by omega
      have hdm : n / 256 * 256 + n % 256 = n := by omega
      simp only [hm, hdm]
    · rw [if_neg h2]
      by_cases h3 : n < 2 ^ 32
      · rw [if_pos h3]
        have hlen : 4 ≤ (beBytes 4 n ++ rest).length := by
          simp [length_beBytes]
        show rdbLoadLen (128 :: (beBytes 4 n ++ rest)) = _
        simp only [rdbLoadLen]
        rw [if_neg (by norm_num), if_neg (by norm_num), if_neg (by norm_num),
          if_pos trivial, if_pos hlen,
          take_append_of_length_eq (length_beBytes 4 n),
          drop_append_of_length_eq (length_beBytes 4 n), beDecode_beBytes]
        have h4 : (256 : Nat) ^ 4 = 2 ^ 32 := by norm_num
        rw [h4, Nat.mod_eq_of_lt h3]
      · rw [if_neg h3]
        have hlen : 8 ≤ (beBytes 8 n ++ rest).length := by
          simp [length_beBytes]
        show rdbLoadLen (129 :: (beBytes 8 n ++ rest)) = _
        simp only [rdbLoadLen]
        rw [if_neg (by norm_num), if_neg (by norm_num), if_neg (by norm_num),
          if_neg (by norm_num), if_pos trivial, if_pos hlen,
          take_append_of_length_eq (length_beBytes 8 n),
          drop_append_of_length_eq (length_beBytes 8 n), beDecode_beBytes]
        have h8 : (256 : Nat) ^ 8 = 2 ^ 64 := by norm_num
        rw [h8, Nat.mod_eq_of_lt hn]

/-- Modelled from the spec: the on-wire RDB type-code constants behind the
cgo constants `C.RDB_TYPE_*` (missing C header; spec §6 type-code table). -/
def RDB_TYPE_STRING : Nat := 0

def RDB_TYPE_LIST : Nat := 1

def RDB_TYPE_SET : Nat := 2

def RDB_TYPE_ZSET : Nat := 3

def RDB_TYPE_HASH : Nat := 4

def RDB_TYPE_ZSET_2 : Nat := 5

def RDB_TYPE_MODULE : Nat := 6

def RDB_TYPE_MODULE_2 : Nat := 7

def RDB_TYPE_HASH_ZIPMAP : Nat := 9

def RDB_TYPE_LIST_ZIPLIST : Nat := 10

def RDB_TYPE_SET_INTSET : Nat := 11

def RDB_TYPE_ZSET_ZIPLIST : Nat := 12

def RDB_TYPE_HASH_ZIPLIST : Nat := 13

def RDB_TYPE_LIST_QUICKLIST : Nat := 14

def RDB_TYPE_STREAM_LISTPACKS : Nat := 15

/-- Modelled from the spec: the RDB version constant behind `C.RDB_VERSION`
(missing C header); the payload footer carries it in 2 little-endian bytes. -/
def RDB_VERSION : Nat := 8

/-- One shift-and-conditional-xor step of the reflected CRC64 (Jones
polynomial) used by the payload checksum. -/
def crc64step (c : Nat) : Nat :=
  if c % 2 = 1 then c / 2 ^^^ 0xad93d23594c935a9 else c / 2

/-- Eight bit-steps of the CRC64, i.e. folding one consumed byte. -/
def crc64byte (c : Nat) : Nat :=
  crc64step (crc64step (crc64step (crc64step
    (crc64step (crc64step (crc64step (crc64step c)))))))

/-- Modelled from the spec: the CRC64-Jones checksum (missing C `crc64`)
accumulated over the bytes of a payload, seed 0, reflected, no final xor. -/
def crc64 (l : List Nat) : Nat :=
  l.foldl (fun c b => crc64byte (c ^^^ b % 256)) 0

/-- The canonical value model (spec §3): the tagged union of logical contents
this core round-trips through a dump payload.  Byte strings are `List Nat`;
a ZSet score is kept as the 64-bit pattern of its raw 8-byte double so that
serialization is byte-exact without floating-point arithmetic. -/
inductive Value where
  | str (s : List Nat)
  | list (xs : List (List Nat))
  | hash (ps : List (List Nat × List Nat))
  | set (xs : List (List Nat))
  | zset (ps : List (List Nat × Nat))
deriving DecidableEq, Repr

/-- Modelled from the spec: the string writer behind the missing C
`rdbSaveStringObject`: a length prefix followed by the raw bytes (the
optional integer/LZF compression paths are writer optimizations the modelled
writer does not take). -/
def rdbSaveString (s : List Nat) : List Nat :=
  rdbSaveLen s.length ++ s

/-- ASCII decimal rendering of a signed integer, as a byte list. -/
def decimalBytes (i : Int) : List Nat :=
  (toString i).toList.map Char.toNat

/-- Modelled from the spec: `loadStringObject` (§4.2).  A plain length is
followed by that many raw bytes; the special encodings int8/int16/int32
(tags 0/1/2) synthesize the decimal text of a little-endian signed integer;
the LZF tag (3) and unrecognized tags fail with `unsupportedEncoding`
(LZF inflation is outside this model; the modelled writer never emits it). -/
def rdbLoadString (s : List Nat) : Except RdbErr (List Nat × List Nat) :=
  match rdbLoadLen s with
  | .error e => .error e
  | .ok (.len n, rest) =>
    if n ≤ rest.length then .ok (rest.take n, rest.drop n)
    else .error .unexpectedEOF
  | .ok (.special 0, rest) =>
    match rest with
    | [] => .error .unexpectedEOF
    | b :: r =>
      .ok (decimalBytes (if b < 128 then (b : Int) else (b : Int) - 256), r)
  | .ok (.special 1, rest) =>
    if 2 ≤ rest.length then
      let u := leDecode (rest.take 2)
      .ok (decimalBytes (if u < 2 ^ 15 then (u : Int) else (u : Int) - 2 ^ 16),
        rest.drop 2)
    else .error .unexpectedEOF
  | .ok (.special 2, rest) =>
    if 4 ≤ rest.length then
      let u := leDecode (rest.take 4)
      .ok (decimalBytes (if u < 2 ^ 31 then (u : Int) else (u : Int) - 2 ^ 32),
        rest.drop 4)
    else .error .unexpectedEOF
  | .ok (.special _, _) => .error .unsupportedEncoding

/-- Modelled from the spec: count-prefixed body reader for List/Set bodies —
`count` successive `loadStringObject` calls (§4.4). -/
def rdbLoadStrings : Nat → List Nat → Except RdbErr (List (List Nat) × List Nat)
  | 0, s => .ok ([], s)
  | n + 1, s =>
    match rdbLoadString s with
    | .error e => .error e
    | .ok (x, r) =>
      match rdbLoadStrings n r with
      | .error e => .error e
      | .ok (xs, r') => .ok (x :: xs, r')

/-- Modelled from the spec: count-prefixed (field, value) body reader for
Hash bodies (§4.4). -/
def rdbLoadPairs : Nat → List Nat → Except RdbErr (List (List Nat × List Nat) × List Nat)
  | 0, s => .ok ([], s)
  | n + 1, s =>
    match rdbLoadString s with
    | .error e => .error e
    | .ok (k, r) =>
      match rdbLoadString r with
      | .error e => .error e
      | .ok (v, r') =>
        match rdbLoadPairs n r' with
        | .error e => .error e
        | .ok (ps, r'') => .ok ((k, v) :: ps, r'')

/-- Modelled from the spec: count-prefixed (member, score) body reader for
ZSet_2 bodies; the score is a raw 8-byte double, read little-endian as its
bit pattern (§4.4). -/
def rdbLoadZsetEntries : Nat → List Nat → Except RdbErr (List (List Nat × Nat) × List Nat)
  | 0, s => .ok ([], s)
  | n + 1, s =>
    match rdbLoadString s with
    | .error e => .error e
    | .ok (m, r) =>
      if 8 ≤ r.length then
        match rdbLoadZsetEntries n (r.drop 8) with
        | .error e => .error e
        | .ok (ps, r') => .ok ((m, leDecode (r.take 8)) :: ps, r')
      else .error .unexpectedEOF

/-- The on-wire type code the modelled writer assigns each Value variant. -/
def typeCodeOf : Value → Nat
  | .str _ => RDB_TYPE_STRING
  | .list _ => RDB_TYPE_LIST
  | .hash _ => RDB_TYPE_HASH
  | .set _ => RDB_TYPE_SET
  | .zset _ => RDB_TYPE_ZSET_2

/-- Modelled from the spec: the body writer behind the missing C
`rdbSaveObject` — count-prefixed sequences of string objects (pairs for
Hash, member plus raw 8-byte score for ZSet_2). -/
def rdbSaveBody : Value → List Nat
  | .str s => rdbSaveString s
  | .list xs => rdbSaveLen xs.length ++ (xs.map rdbSaveString).flatten
  | .hash ps =>
    rdbSaveLen ps.length ++ (ps.map fun p => rdbSaveString p.1 ++ rdbSaveString p.2).flatten
  | .set xs => rdbSaveLen xs.length ++ (xs.map rdbSaveString).flatten
  | .zset ps =>
    rdbSaveLen ps.length ++ (ps.map fun p => rdbSaveString p.1 ++ leBytes 8 p.2).flatten

/-- Modelled from the spec: the missing C `rdbSaveObject` — the type code
byte followed by the body. -/
def rdbSaveObject (v : Value) : List Nat :=
  typeCodeOf v :: rdbSaveBody v

/-- Modelled from the spec: the object type dispatcher `loadObject` (§4.4)
behind the missing C `rdbLoadObject`: one branch per type code, unknown
codes fail with `unsupportedType`. -/
def rdbLoadObject (t : Nat) (s : List Nat) : Except RdbErr (Value × List Nat) :=
  if t = RDB_TYPE_STRING then
    match rdbLoadString s with
    | .error e => .error e
    | .ok (x, r) => .ok (.str x, r)
  else if t = RDB_TYPE_LIST then
    match rdbLoadLen s with
    | .error e => .error e
    | .ok (.special _, _) => .error .corruptedPayload
    | .ok (.len n, r) =>
      match rdbLoadStrings n r with
      | .error e => .error e
      | .ok (xs, r') => .ok (.list xs, r')
  else if t = RDB_TYPE_SET then
    match rdbLoadLen s with
    | .error e => .error e
    | .ok (.special _, _) => .error .corruptedPayload
    | .ok (.len n, r) =>
      match rdbLoadStrings n r with
      | .error e => .error e
      | .ok (xs, r') => .ok (.set xs, r')
  else if t = RDB_TYPE_HASH then
    match rdbLoadLen s with
    | .error e => .error e
    | .ok (.special _, _) => .error .corruptedPayload
    | .ok (.len n, r) =>
      match rdbLoadPairs n r with
      | .error e => .error e
      | .ok (ps, r') => .ok (.hash ps, r')
  else if t = RDB_TYPE_ZSET_2 then
    match rdbLoadLen s with
    | .error e => .error e
    | .ok (.special _, _) => .error .corruptedPayload
    | .ok (.len n, r) =>
      match rdbLoadZsetEntries n r with
      | .error e => .error e
      | .ok (ps, r') => .ok (.zset ps, r')
  else .error .unsupportedType

/-- Modelled from the spec: the missing C `redisObjectCreateDumpPayload`
(§4.6 `createDumpPayload`): encoded object bytes, then the 2-byte
little-endian RDB version, then the 8-byte little-endian CRC64 of
everything preceding it. -/
def createDumpPayload (v : Value) : List Nat :=
  rdbSaveObject v ++ leBytes 2 RDB_VERSION
    ++ leBytes 8 (crc64 (rdbSaveObject v ++ leBytes 2 RDB_VERSION))

/-- Modelled from the spec: the missing C `redisObjectDecodeFromPayload`
(§4.6 `decodeFromPayload`): reads the type code and body, requires the body
to be fully consumed, rejects a trailing version newer than `RDB_VERSION`
with `unsupportedVersion`, and rejects a trailing checksum that differs from
a freshly computed CRC64 of the prefix with `corruptedPayload`. -/
def decodeFromPayload (p : List Nat) : Except RdbErr Value :=
  if p.length < 10 then .error .corruptedPayload
  else
    match p.take (p.length - 10) with
    | [] => .error .unexpectedEOF
    | t :: body =>
      match rdbLoadObject t body with
      | .error e => .error e
      | .ok (v, rest) =>
        if rest = [] then
          if RDB_VERSION < leDecode ((p.drop (p.length - 10)).take 2) then
            .error .unsupportedVersion
          else if p.drop (p.length - 8) = leBytes 8 (crc64 (p.take (p.length - 8))) then
            .ok v
          else .error .corruptedPayload
        else .error .corruptedPayload

theorem rdbLoadString_rdbSaveString (s : List Nat) (hs : s.length < 2 ^ 64) (r : List Nat) :
    rdbLoadString (rdbSaveString s ++ r) = .ok (s, r) := by
  unfold rdbSaveString rdbLoadString
  rw [List.append_assoc, rdbLoadLen_rdbSaveLen s.length hs]
  simp only [List.length_append, Nat.le_add_right, if_true,
    take_append_of_length_eq rfl, drop_append_of_length_eq rfl]

theorem rdbLoadStrings_append (xs : List (List Nat))
    (h : ∀ x ∈ xs, x.length < 2 ^ 64) (r : List Nat) :
    rdbLoadStrings xs.length ((xs.map rdbSaveString).flatten ++ r) = .ok (xs, r) := by
  induction xs with
  | nil => simp [rdbLoadStrings]
  | cons x t ih =>
    have hx : x.length < 2 ^ 64 := h x (List.mem_cons_self x t)
    have ht : ∀ y ∈ t, y.length < 2 ^ 64 := fun y hy => h y (List.mem_cons_of_mem x hy)
    simp only [List.map_cons, List.flatten_cons, List.length_cons, List.append_assoc]
    simp only [rdbLoadStrings, rdbLoadString_rdbSaveString x hx, ih ht]

theorem rdbLoadPairs_append (ps : List (List Nat × List Nat))
    (h : ∀ p ∈ ps, p.1.length < 2 ^ 64 ∧ p.2.length < 2 ^ 64) (r : List Nat) :
    rdbLoadPairs ps.length
      ((ps.map fun p => rdbSaveString p.1 ++ rdbSaveString p.2).flatten ++ r)
      = .ok (ps, r) := by
  induction ps with
  | nil => simp [rdbLoadPairs]
  | cons p t ih =>
    have hp := h p (List.mem_cons_self p t)
    have ht : ∀ q ∈ t, q.1.length < 2 ^ 64 ∧ q.2.length < 2 ^ 64 :=
      fun q hq => h q (List.mem_cons_of_mem p hq)
    simp only [List.map_cons, List.flatten_cons, List.length_cons, List.append_assoc]
    simp only [rdbLoadPairs, rdbLoadString_rdbSaveString p.1 hp.1,
      rdbLoadString_rdbSaveString p.2 hp.2, ih ht]

theorem rdbLoadZsetEntries_append (ps : List (List Nat × Nat))
    (h : ∀ p ∈ ps, p.1.length < 2 ^ 64 ∧ p.2 < 2 ^ 64) (r : List Nat) :
    rdbLoadZsetEntries ps.length
      ((ps.map fun p => rdbSaveString p.1 ++ leBytes 8 p.2).flatten ++ r)
      = .ok (ps, r) := by
  induction ps with
  | nil => simp [rdbLoadZsetEntries]
  | cons p t ih =>
    have hp := h p (List.mem_cons_self p t)
    have ht : ∀ q ∈ t, q.1.length < 2 ^ 64 ∧ q.2 < 2 ^ 64 :=
      fun q hq => h q (List.mem_cons_of_mem p hq)
    simp only [List.map_cons, List.flatten_cons, List.length_cons, List.append_assoc]
    simp only [rdbLoadZsetEntries, rdbLoadString_rdbSaveString p.1 hp.1]
    have hlen : 8 ≤ (leBytes 8 p.2 ++ ((t.map fun q => rdbSaveString q.1 ++ leBytes 8 q.2).flatten ++ r)).length := by
      simp [length_leBytes]
    rw [if_pos hlen, take_append_of_length_eq (length_leBytes 8 p.2),
      drop_append_of_length_eq (length_leBytes 8 p.2)]
    simp only [ih ht, leDecode_leBytes, Nat.mod_eq_of_lt (by norm_num at hp ⊢; omega : p.2 < 256 ^ 8)]

/-- Well-formedness of a modelled Value: every length and score fits the
64-bit fields the wire format carries. -/
def wfValue : Value → Prop
  | .str s => s.length < 2 ^ 64
  | .list xs => xs.length < 2 ^ 64 ∧ ∀ x ∈ xs, x.length < 2 ^ 64
  | .hash ps => ps.length < 2 ^ 64 ∧ ∀ p ∈ ps, p.1.length < 2 ^ 64 ∧ p.2.length < 2 ^ 64
  | .set xs => xs.length < 2 ^ 64 ∧ ∀ x ∈ xs, x.length < 2 ^ 64
  | .zset ps => ps.length < 2 ^ 64 ∧ ∀ p ∈ ps, p.1.length < 2 ^ 64 ∧ p.2 < 2 ^ 64

instance wfValue.instDecidable (v : Value) : Decidable (wfValue v) := by
  cases v <;> simp only [wfValue] <;> infer_instance

theorem rdbLoadObject_rdbSaveObject (v : Value) (h : wfValue v) (r : List Nat) :
    rdbLoadObject (typeCodeOf v) (rdbSaveBody v ++ r) = .ok (v, r) := by
  cases v with
  | str s =>
    simp only [wfValue] at h
    simp only [typeCodeOf, rdbSaveBody, rdbLoadObject,
      rdbLoadString_rdbSaveString s h r]
    rw [if_pos trivial]
  | list xs =>
    obtain ⟨hlen, helts⟩ := h
    simp only [typeCodeOf, rdbSaveBody, rdbLoadObject]
    rw [if_pos trivial, List.append_assoc, rdbLoadLen_rdbSaveLen xs.length hlen]
    simp only [rdbLoadStrings_append xs helts r]
    simp [RDB_TYPE_STRING, RDB_TYPE_LIST, RDB_TYPE_SET, RDB_TYPE_HASH, RDB_TYPE_ZSET_2]
  | set xs =>
    obtain ⟨hlen, helts⟩ := h
    simp only [typeCodeOf, rdbSaveBody, rdbLoadObject]
    rw [if_pos trivial, List.append_assoc, rdbLoadLen_rdbSaveLen xs.length hlen]
    simp only [rdbLoadStrings_append xs helts r]
    simp [RDB_TYPE_STRING, RDB_TYPE_LIST, RDB_TYPE_SET, RDB_TYPE_HASH, RDB_TYPE_ZSET_2]
  | hash ps =>
    obtain ⟨hlen, helts⟩ := h
    simp only [typeCodeOf, rdbSaveBody, rdbLoadObject]
    rw [if_pos trivial, List.append_assoc, rdbLoadLen_rdbSaveLen ps.length hlen]
    simp only [rdbLoadPairs_append ps helts r]
    simp [RDB_TYPE_STRING, RDB_TYPE_LIST, RDB_TYPE_SET, RDB_TYPE_HASH, RDB_TYPE_ZSET_2]
  | zset ps =>
    obtain ⟨hlen, helts⟩ := h
    simp only [typeCodeOf, rdbSaveBody, rdbLoadObject]
    rw [if_pos trivial, List.append_assoc, rdbLoadLen_rdbSaveLen ps.length hlen]
    simp only [rdbLoadZsetEntries_append ps helts r]
    simp [RDB_TYPE_STRING, RDB_TYPE_LIST, RDB_TYPE_SET, RDB_TYPE_HASH, RDB_TYPE_ZSET_2]

theorem decodeFromPayload_frame (t : Nat) (B : List Nat) (v : Value)
    (hload : rdbLoadObject t B = .ok (v, [])) :
    decodeFromPayload ((t :: B) ++ leBytes 2 RDB_VERSION
      ++ leBytes 8 (crc64 ((t :: B) ++ leBytes 2 RDB_VERSION))) = .ok v := by
  unfold decodeFromPayload
  set V := leBytes 2 RDB_VERSION with hV
  set C := leBytes 8 (crc64 ((t :: B) ++ V)) with hC
  have hVl : V.length = 2 := length_leBytes 2 _
  have hCl : C.length = 8 := length_leBytes 8 _
  have hPl : ((t :: B) ++ V ++ C).length = B.length + 11 := by
    simp [hVl, hCl]
  have h10 : ¬ ((t :: B) ++ V ++ C).length < 10 := by omega
  have htake10 : ((t :: B) ++ V ++ C).take (((t :: B) ++ V ++ C).length - 10) = t :: B := by
    rw [List.append_assoc]
    exact take_append_of_length_eq
      (by simp only [List.length_append, List.length_cons, hVl, hCl]; omega)
  have hdrop10 : ((t :: B) ++ V ++ C).drop (((t :: B) ++ V ++ C).length - 10) = V ++ C := by
    rw [List.append_assoc]
    exact drop_append_of_length_eq
      (by simp only [List.length_append, List.length_cons, hVl, hCl]; omega)
  have htake8 : ((t :: B) ++ V ++ C).take (((t :: B) ++ V ++ C).length - 8) = (t :: B) ++ V :=
    take_append_of_length_eq
      (by simp only [List.length_append, List.length_cons, hVl, hCl]; omega)
  have hdrop8 : ((t :: B) ++ V ++ C).drop (((t :: B) ++ V ++ C).length - 8) = C :=
    drop_append_of_length_eq
      (by simp only [List.length_append, List.length_cons, hVl, hCl]; omega)
  have hver : ¬ RDB_VERSION < leDecode ((V ++ C).take 2) := by
    rw [take_append_of_length_eq hVl, hV, leDecode_leBytes]
    decide
  rw [if_neg h10, htake10]
  simp only [hload]
  rw [hdrop10, hdrop8, htake8]
  rw [if_neg hver]
  simp [hC]

theorem decodeFromPayload_createDumpPayload (v : Value) (h : wfValue v) :
    decodeFromPayload (createDumpPayload v) = .ok v := by
  have hload : rdbLoadObject (typeCodeOf v) (rdbSaveBody v) = .ok (v, []) := by
    have h2 := rdbLoadObject_rdbSaveObject v h []
    rwa [List.append_nil] at h2
  have hfr := decodeFromPayload_frame (typeCodeOf v) (rdbSaveBody v) v hload
  simpa [createDumpPayload, rdbSaveObject] using hfr

/-- Logical-content agreement between two Values, as the spec's round-trip
property states it: byte-equal for String, order-preserving for List,
order-insensitive (permutation of the element/pair lists) for
Hash/Set/ZSet. -/
def sameContent : Value → Value → Prop
  | .str a, .str b => a = b
  | .list a, .list b => a = b
  | .hash a, .hash b => a.Perm b
  | .set a, .set b => a.Perm b
  | .zset a, .zset b => a.Perm b
  | _, _ => False

theorem sameContent_refl (v : Value) : sameContent v v := by
  cases v <;> simp only [sameContent] <;> exact List.Perm.refl _

/-- C1: decoding the dump payload produced for any supported Value yields a
Value with the same logical content: equal bytes for String, the same ordered
elements for List, and the same element/pair multiset for Hash/Set/ZSet. -/
theorem dump_payload_roundtrip (v : Value) (h : wfValue v) :
    ∃ w, decodeFromPayload (createDumpPayload v) = .ok w ∧ sameContent v w :=
  ⟨v, decodeFromPayload_createDumpPayload v h, sameContent_refl v⟩

/-- Witness for C1 at a concrete two-element list value. -/
theorem dump_payload_roundtrip_witness :
    wfValue (Value.list [[102, 111, 111], [98]])
    ∧ ∃ w, decodeFromPayload (createDumpPayload (Value.list [[102, 111, 111], [98]]))
        = .ok w ∧ sameContent (Value.list [[102, 111, 111], [98]]) w :=
  ⟨by decide, dump_payload_roundtrip (Value.list [[102, 111, 111], [98]]) (by decide)⟩

/-- C3: the length codec's 1-byte prefix selects the documented size class
(6-bit inline, 14-bit, 32-bit big-endian, 64-bit big-endian, or special), and
each boundary value 63, 64, 16383, 16384, 2^32-1, 2^32 is encoded in the
correct size class and round-trips exactly through encode-then-decode. -/
theorem rdb_length_boundaries :
    (∀ n rest, n < 2 ^ 64 → rdbLoadLen (rdbSaveLen n ++ rest) = .ok (.len n, rest))
    ∧ lenClassOf ((rdbSaveLen 63).headD 0) = some .bits6
    ∧ (rdbSaveLen 63).length = 1
    ∧ rdbLoadLen (rdbSaveLen 63) = .ok (.len 63, [])
    ∧ lenClassOf ((rdbSaveLen 64).headD 0) = some .bits14
    ∧ (rdbSaveLen 64).length = 2
    ∧ rdbLoadLen (rdbSaveLen 64) = .ok (.len 64, [])
    ∧ lenClassOf ((rdbSaveLen 16383).headD 0) = some .bits14
    ∧ (rdbSaveLen 16383).length = 2
    ∧ rdbLoadLen (rdbSaveLen 16383) = .ok (.len 16383, [])
    ∧ lenClassOf ((rdbSaveLen 16384).headD 0) = some .bits32
    ∧ (rdbSaveLen 16384).length = 5
    ∧ rdbLoadLen (rdbSaveLen 16384) = .ok (.len 16384, [])
    ∧ lenClassOf ((rdbSaveLen (2 ^ 32 - 1)).headD 0) = some .bits32
    ∧ (rdbSaveLen (2 ^ 32 - 1)).length = 5
    ∧ rdbLoadLen (rdbSaveLen (2 ^ 32 - 1)) = .ok (.len (2 ^ 32 - 1), [])
    ∧ lenClassOf ((rdbSaveLen (2 ^ 32)).headD 0) = some .bits64
    ∧ (rdbSaveLen (2 ^ 32)).length = 9
    ∧ rdbLoadLen (rdbSaveLen (2 ^ 32)) = .ok (.len (2 ^ 32), []) := by
  refine ⟨fun n rest hn => rdbLoadLen_rdbSaveLen n hn rest, ?_⟩
  decide

/-- Flip bit `k` (xor with `2 ^ k`) of the byte at index `i` of `l`. -/
def flipBitAt (l : List Nat) (i k : Nat) : List Nat :=
  l.set i (l.getD i 0 ^^^ 2 ^ k)

theorem flipBitAt_length (l : List Nat) (i k : Nat) :
    (flipBitAt l i k).length = l.length := by
  simp [flipBitAt]

theorem flipBitAt_ne (l : List Nat) (i k : Nat) (hi : i < l.length) :
    flipBitAt l i k ≠ l := by
  intro h
  have h1 : (flipBitAt l i k).getD i 0 = l.getD i 0 := by rw [h]
  have h2 : (flipBitAt l i k).getD i 0 = l.getD i 0 ^^^ 2 ^ k := by
    simp [flipBitAt, List.getD_eq_getElem?_getD, List.getElem?_set_self, hi]
  rw [h2] at h1
  have h3 : l.getD i 0 ^^^ (l.getD i 0 ^^^ 2 ^ k) = l.getD i 0 ^^^ l.getD i 0 := by
    rw [h1]
  rw [← Nat.xor_assoc, Nat.xor_self, Nat.zero_xor] at h3
  simp at h3

theorem decodeFromPayload_ok_facts (p : List Nat) (v : Value)
    (h : decodeFromPayload p = .ok v) :
    10 ≤ p.length
    ∧ (∃ t body, p.take (p.length - 10) = t :: body
        ∧ rdbLoadObject t body = .ok (v, []))
    ∧ ¬ RDB_VERSION < leDecode ((p.drop (p.length - 10)).take 2)
    ∧ p.drop (p.length - 8) = leBytes 8 (crc64 (p.take (p.length - 8))) := by
  unfold decodeFromPayload at h
  split at h
  · simp at h
  · rename_i h10
    split at h
    · simp at h
    · rename_i t body htk
      split at h
      · simp at h
      · rename_i w rest hob
        split at h
        · rename_i hrest
          split at h
          · simp at h
          · rename_i hver
            split at h
            · rename_i hcrc
              simp only [Except.ok.injEq] at h
              subst h
              subst hrest
              exact ⟨by omega, ⟨t, body, htk, hob⟩, hver, hcrc⟩
            · simp at h
        · simp at h

/-- C2: flipping any single bit of the trailing 8-byte CRC64 checksum of a
valid dump payload makes decoding fail with CorruptedPayload, never
returning a Value. -/
theorem flip_checksum_corrupts (p : List Nat) (v : Value) (i k : Nat)
    (hok : decodeFromPayload p = .ok v) (hi : i < 8) (hk : k < 8) :
    decodeFromPayload
        (p.take (p.length - 8) ++ flipBitAt (p.drop (p.length - 8)) i k)
      = .error .corruptedPayload := by
  obtain ⟨h10, ⟨t, body, htk, hob⟩, hver, hcrc⟩ := decodeFromPayload_ok_facts p v hok
  have hpre : (p.take (p.length - 8)).length = p.length - 8 := by
    rw [List.length_take]
    omega
  have hsuf : (p.drop (p.length - 8)).length = 8 := by
    rw [List.length_drop]
    omega
  set q := p.take (p.length - 8) ++ flipBitAt (p.drop (p.length - 8)) i k with hqdef
  have hql : q.length = p.length := by
    rw [hqdef, List.length_append, hpre, flipBitAt_length, hsuf]
    omega
  have hq_take10 : q.take (p.length - 10) = t :: body := by
    rw [hqdef, List.take_append_of_le_length (by rw [hpre]; omega), List.take_take,
      min_eq_left (by omega)]
    exact htk
  have hq_ver : (q.drop (p.length - 10)).take 2 = (p.drop (p.length - 10)).take 2 := by
    rw [hqdef, List.drop_append_eq_append_drop,
      take_append_of_length_eq (by rw [List.length_drop, hpre]; omega),
      List.drop_take]
    congr 1
    omega
  have hq_take8 : q.take (p.length - 8) = p.take (p.length - 8) := by
    rw [hqdef]
    exact take_append_of_length_eq hpre
  have hq_drop8 : q.drop (p.length - 8) = flipBitAt (p.drop (p.length - 8)) i k := by
    rw [hqdef]
    exact drop_append_of_length_eq hpre
  have hne : flipBitAt (p.drop (p.length - 8)) i k
      ≠ leBytes 8 (crc64 (p.take (p.length - 8))) := by
    rw [← hcrc]
    exact flipBitAt_ne _ i k (by rw [hsuf]; exact hi)
  unfold decodeFromPayload
  rw [hql, if_neg (by omega), hq_take10]
  simp only [hob]
  rw [hq_ver, if_neg hver, hq_drop8, hq_take8, if_neg hne]
  simp

set_option maxRecDepth 100000 in
/-- Witness for C2: the payload for the string "foo" decodes, and flipping
bit 0 of checksum byte 0 corrupts it. -/
theorem flip_checksum_corrupts_witness :
    decodeFromPayload (createDumpPayload (Value.str [102, 111, 111]))
        = .ok (Value.str [102, 111, 111])
    ∧ decodeFromPayload
        ((createDumpPayload (Value.str [102, 111, 111])).take
            ((createDumpPayload (Value.str [102, 111, 111])).length - 8)
          ++ flipBitAt ((createDumpPayload (Value.str [102, 111, 111])).drop
            ((createDumpPayload (Value.str [102, 111, 111])).length - 8)) 0 0)
        = .error .corruptedPayload :=
  ⟨by decide, flip_checksum_corrupts (createDumpPayload (Value.str [102, 111, 111]))
    (Value.str [102, 111, 111]) 0 0 (by decide) (by decide) (by decide)⟩

/-- Modelled from the spec: the byte-reader contract behind `redisRio.Read`
(§4.1): the missing C `redisRioRead` returns exactly `n` bytes from the
buffered stream, failing with `UnexpectedEOF` when fewer than `n` remain
(the Go wrapper surfaces that failure as `io.ErrUnexpectedEOF`). -/
def redisRioRead (s : List Nat) (n : Nat) : Except RdbErr (List Nat × List Nat) :=
  if s.length < n then .error .unexpectedEOF
  else .ok (s.take n, s.drop n)

/-- C4: a read of `n` bytes fails with UnexpectedEOF when fewer than `n`
bytes remain, and otherwise succeeds returning exactly `n` bytes, the
stream's prefix, leaving the rest. -/
theorem redisRioRead_spec (s : List Nat) (n : Nat) :
    (s.length < n → redisRioRead s n = .error .unexpectedEOF)
    ∧ (n ≤ s.length → redisRioRead s n = .ok (s.take n, s.drop n)
        ∧ (s.take n).length = n ∧ s.take n ++ s.drop n = s) := by
  constructor
  · intro h
    unfold redisRioRead
    rw [if_pos h]
  · intro h
    refine ⟨?_, ?_, List.take_append_drop n s⟩
    · unfold redisRioRead
      rw [if_neg (by omega)]
    · rw [List.length_take]
      omega

/-- Witness for C4 on a 3-byte stream: a 2-byte read succeeds with exactly
those bytes, a 4-byte read fails with UnexpectedEOF. -/
theorem redisRioRead_spec_witness :
    redisRioRead [1, 2, 3] 2 = .ok ([1, 2], [3])
    ∧ redisRioRead [1, 2, 3] 4 = .error .unexpectedEOF :=
  ⟨((redisRioRead_spec [1, 2, 3] 2).2 (by decide)).1,
    (redisRioRead_spec [1, 2, 3] 4).1 (by decide)⟩

/-- C5: the decoder's on-wire type-code constants equal exactly the
integers Redis assigns. -/
theorem rdb_type_code_values :
    RDB_TYPE_STRING = 0 ∧ RDB_TYPE_LIST = 1 ∧ RDB_TYPE_SET = 2
    ∧ RDB_TYPE_ZSET = 3 ∧ RDB_TYPE_HASH = 4 ∧ RDB_TYPE_ZSET_2 = 5
    ∧ RDB_TYPE_MODULE = 6 ∧ RDB_TYPE_MODULE_2 = 7 ∧ RDB_TYPE_HASH_ZIPMAP = 9
    ∧ RDB_TYPE_LIST_ZIPLIST = 10 ∧ RDB_TYPE_SET_INTSET = 11
    ∧ RDB_TYPE_ZSET_ZIPLIST = 12 ∧ RDB_TYPE_HASH_ZIPLIST = 13
    ∧ RDB_TYPE_LIST_QUICKLIST = 14 ∧ RDB_TYPE_STREAM_LISTPACKS = 15 := by
  decide

/-- A `RedisUnsafeSds` (src): either a pointed-to byte buffer (`Ptr`/`Len`,
modelled as `some bytes`; `none` models a nil `Ptr`) together with the
signed 64-bit integer fallback `Value` used when the pointer is nil. -/
structure RedisUnsafeSds where
  ptr : Option (List Nat)
  value : Int
deriving DecidableEq, Repr

/-- The Go string whose bytes are `bs`; `string(unsafeCastToSlice(..))`
(the copying cast, src) and `unsafeCastToString(..)` (the borrowing cast,
src) both produce a string with exactly these bytes. -/
def goStringOfBytes (bs : List Nat) : String :=
  String.mk (bs.map Char.ofNat)

/-- `strconv.FormatInt(v, 10)` (src): decimal rendering of an integer. -/
def formatInt (i : Int) : String :=
  toString i

/-- `RedisUnsafeSds.String` (src): the copying text view — the buffer's
bytes copied into a fresh string, or the decimal text of `Value` when the
pointer is nil. -/
def RedisUnsafeSds.string (p : RedisUnsafeSds) : String :=
  match p.ptr with
  | some bs => goStringOfBytes bs
  | none => formatInt p.value

/-- `RedisUnsafeSds.UnsafeString` (src): the borrowing text view — the same
bytes viewed in place (the lifetime aspect is not modelled), or the decimal
text of `Value` when the pointer is nil. -/
def RedisUnsafeSds.unsafeString (p : RedisUnsafeSds) : String :=
  match p.ptr with
  | some bs => goStringOfBytes bs
  | none => formatInt p.value

/-- C6: the copying and the borrowing text views render the identical
string for every decoded textual element; in particular the
integer-fallback sds holding 12345 renders as "12345" via both. -/
theorem sds_text_views_agree :
    (∀ p : RedisUnsafeSds, p.string = p.unsafeString)
    ∧ (RedisUnsafeSds.mk none 12345).string = "12345"
    ∧ (RedisUnsafeSds.mk none 12345).unsafeString = "12345" := by
  refine ⟨fun p => ?_, by decide, by decide⟩
  cases hp : p.ptr <;>
    simp [RedisUnsafeSds.string, RedisUnsafeSds.unsafeString, hp]

/-- Modelled from the spec: the per-collection iterator state behind the
missing C iterators (`redisListIteratorNext` and friends, §4.5, §5): the
not-yet-yielded elements, a released flag, and the back-reference to the
parent Value's element sequence (which iteration never mutates).  `α` is
the element shape: an sds for List/Set, a pair for Hash, an
(sds, score-bit-pattern) pair for ZSet. -/
structure RdbIterator (α : Type) where
  elems : List α
  released : Bool
  parent : List α
deriving DecidableEq, Repr

/-- Modelled from the spec: `next()` — yields the next element, or the
exhausted sentinel `none` (the C nonzero return that the Go wrappers map to
a nil result) once the sequence is exhausted or the iterator released,
leaving the iterator unchanged in that case. -/
def RdbIterator.Next {α : Type} (it : RdbIterator α) : Option α × RdbIterator α :=
  if it.released then (none, it)
  else
    match it.elems with
    | [] => (none, it)
    | x :: xs => (some x, { it with elems := xs })

/-- Modelled from the spec: `release()` — frees the iteration scratch state
and marks the iterator released. -/
def RdbIterator.Release {α : Type} (it : RdbIterator α) : RdbIterator α :=
  { it with elems := [], released := true }

/-- C7: calling next() after exhaustion or after release() is a no-op that
returns the exhausted sentinel and leaves the iterator — including its
parent back-reference — unchanged. -/
theorem iterator_next_exhausted_noop {α : Type} (it : RdbIterator α)
    (h : it.elems = [] ∨ it.released = true) :
    it.Next = (none, it) ∧ it.Next.2.parent = it.parent := by
  have h1 : it.Next = (none, it) := by
    rcases h with h | h
    · unfold RdbIterator.Next
      rw [h]
      split <;> rfl
    · unfold RdbIterator.Next
      rw [h, if_pos rfl]
  exact ⟨h1, by rw [h1]⟩

/-- Witness for C7: an exhausted unreleased iterator, and a released
iterator, both return the sentinel unchanged. -/
theorem iterator_next_exhausted_noop_witness :
    ((RdbIterator.mk ([] : List Nat) false [5]).elems = []
      ∨ (RdbIterator.mk ([] : List Nat) false [5]).released = true)
    ∧ (RdbIterator.mk ([] : List Nat) false [5]).Next
        = (none, RdbIterator.mk [] false [5])
    ∧ ((RdbIterator.mk ([7] : List Nat) true [7]).elems = []
      ∨ (RdbIterator.mk ([7] : List Nat) true [7]).released = true)
    ∧ (RdbIterator.mk ([7] : List Nat) true [7]).Next
        = (none, RdbIterator.mk [7] true [7]) :=
  ⟨Or.inl rfl,
    (iterator_next_exhausted_noop (RdbIterator.mk [] false [5]) (Or.inl rfl)).1,
    Or.inr rfl,
    (iterator_next_exhausted_noop (RdbIterator.mk [7] true [7]) (Or.inr rfl)).1⟩

theorem RdbIterator.next_some_length {α : Type} {it it' : RdbIterator α} {x : α}
    (h : it.Next = (some x, it')) : it'.elems.length < it.elems.length := by
  unfold RdbIterator.Next at h
  split at h
  · simp at h
  · split at h
    · simp at h
    · rename_i y ys hys
      simp only [Prod.mk.injEq, Option.some.injEq] at h
      obtain ⟨h1, h2⟩ := h
      rw [← h2]
      simp [hys]

/-- Spec-side definition (§4.5): the drain of an iterator — the sequence of
elements obtained by repeatedly calling `next()` until the exhausted
sentinel. -/
def drainIterator {α : Type} (it : RdbIterator α) : List α :=
  match _h : it.Next with
  | (some x, it') => x :: drainIterator it'
  | (none, _) => []
termination_by it.elems.length
decreasing_by exact RdbIterator.next_some_length _h

theorem drainIterator_eq {α : Type} (it : RdbIterator α) :
    drainIterator it = if it.released then [] else it.elems := by
  rcases it with ⟨elems, released, parent⟩
  induction elems with
  | nil =>
    rw [drainIterator]
    cases released <;> simp [RdbIterator.Next]
  | cons x xs ih =>
    rw [drainIterator]
    cases released
    · simp [RdbIterator.Next, ih]
    · simp [RdbIterator.Next]

/-- `RedisListObject` (src): a decoded List value, abstracted to its
ordered element sequence. -/
structure RedisListObject where
  elems : List RedisUnsafeSds

/-- `RedisListObject.NewIterator` (src, backed by the missing C
`redisListObjectNewIterator`): a fresh unreleased iterator over the
elements, holding the parent back-reference. -/
def RedisListObject.NewIterator (o : RedisListObject) : RdbIterator RedisUnsafeSds :=
  ⟨o.elems, false, o.elems⟩

/-- The loop of `RedisListObject.Strings` (src): call `Next()` until the nil
sentinel, appending the copying view of each element. -/
def listStringsLoop (it : RdbIterator RedisUnsafeSds) : List String :=
  match _h : it.Next with
  | (some x, it') => x.string :: listStringsLoop it'
  | (none, _) => []
termination_by it.elems.length
decreasing_by exact RdbIterator.next_some_length _h

/-- `RedisListObject.Strings` (src): materialize the list through a fresh
iterator's drain loop. -/
def RedisListObject.Strings (o : RedisListObject) : List String :=
  listStringsLoop o.NewIterator

/-- Go map assignment `m[k] = v`, modelled on an association list: replace
the existing binding for `k`, or append a new one. -/
def goMapInsert {β : Type} (m : List (String × β)) (k : String) (v : β) :
    List (String × β) :=
  if m.any fun p => p.1 == k then
    m.map fun p => if p.1 = k then (k, v) else p
  else m ++ [(k, v)]

/-- `RedisHashObject` (src): a decoded Hash value, abstracted to its
field/value pair sequence. -/
structure RedisHashObject where
  pairs : List (RedisUnsafeSds × RedisUnsafeSds)

/-- `RedisHashObject.NewIterator` (src). -/
def RedisHashObject.NewIterator (o : RedisHashObject) :
    RdbIterator (RedisUnsafeSds × RedisUnsafeSds) :=
  ⟨o.pairs, false, o.pairs⟩

/-- The loop of `RedisHashObject.Map` (src): drain the iterator, inserting
each key/value pair (copying views) into a Go map. -/
def hashMapLoop (it : RdbIterator (RedisUnsafeSds × RedisUnsafeSds))
    (acc : List (String × String)) : List (String × String) :=
  match _h : it.Next with
  | (some kv, it') => hashMapLoop it' (goMapInsert acc kv.1.string kv.2.string)
  | (none, _) => acc
termination_by it.elems.length
decreasing_by exact RdbIterator.next_some_length _h

/-- `RedisHashObject.Map` (src). -/
def RedisHashObject.Map (o : RedisHashObject) : List (String × String) :=
  hashMapLoop o.NewIterator []

/-- `RedisZsetObject` (src): a decoded ZSet value, abstracted to its
member/score pair sequence (scores as 64-bit double bit patterns). -/
structure RedisZsetObject where
  pairs : List (RedisUnsafeSds × Nat)

/-- `RedisZsetObject.NewIterator` (src). -/
def RedisZsetObject.NewIterator (o : RedisZsetObject) :
    RdbIterator (RedisUnsafeSds × Nat) :=
  ⟨o.pairs, false, o.pairs⟩

/-- The loop of `RedisZsetObject.Map` (src): drain the iterator, inserting
each member/score pair into a Go map. -/
def zsetMapLoop (it : RdbIterator (RedisUnsafeSds × Nat))
    (acc : List (String × Nat)) : List (String × Nat) :=
  match _h : it.Next with
  | (some ms, it') => zsetMapLoop it' (goMapInsert acc ms.1.string ms.2)
  | (none, _) => acc
termination_by it.elems.length
decreasing_by exact RdbIterator.next_some_length _h

/-- `RedisZsetObject.Map` (src). -/
def RedisZsetObject.Map (o : RedisZsetObject) : List (String × Nat) :=
  zsetMapLoop o.NewIterator []

/-- `RedisSetObject` (src): a decoded Set value, abstracted to its element
sequence. -/
structure RedisSetObject where
  elems : List RedisUnsafeSds

/-- `RedisSetObject.NewIterator` (src). -/
def RedisSetObject.NewIterator (o : RedisSetObject) : RdbIterator RedisUnsafeSds :=
  ⟨o.elems, false, o.elems⟩

/-- The loop of `RedisSetObject.Map` (src): drain the iterator, inserting
each member with value `true` into a Go map. -/
def setMapLoop (it : RdbIterator RedisUnsafeSds)
    (acc : List (String × Bool)) : List (String × Bool) :=
  match _h : it.Next with
  | (some x, it') => setMapLoop it' (goMapInsert acc x.string true)
  | (none, _) => acc
termination_by it.elems.length
decreasing_by exact RdbIterator.next_some_length _h

/-- `RedisSetObject.Map` (src). -/
def RedisSetObject.Map (o : RedisSetObject) : List (String × Bool) :=
  setMapLoop o.NewIterator []

theorem listStringsLoop_eq (it : RdbIterator RedisUnsafeSds) :
    listStringsLoop it
      = if it.released then [] else it.elems.map RedisUnsafeSds.string := by
  rcases it with ⟨elems, released, parent⟩
  induction elems with
  | nil =>
    rw [listStringsLoop]
    cases released <;> simp [RdbIterator.Next]
  | cons x xs ih =>
    rw [listStringsLoop]
    cases released
    · simp [RdbIterator.Next, ih]
    · simp [RdbIterator.Next]

theorem hashMapLoop_eq (it : RdbIterator (RedisUnsafeSds × RedisUnsafeSds)) :
    ∀ acc, hashMapLoop it acc
      = (if it.released then [] else it.elems).foldl
          (fun m kv => goMapInsert m kv.1.string kv.2.string) acc := by
  rcases it with ⟨elems, released, parent⟩
  induction elems with
  | nil =>
    intro acc
    rw [hashMapLoop]
    cases released <;> simp [RdbIterator.Next]
  | cons x xs ih =>
    intro acc
    rw [hashMapLoop]
    cases released
    · simp [RdbIterator.Next, ih]
    · simp [RdbIterator.Next]

theorem zsetMapLoop_eq (it : RdbIterator (RedisUnsafeSds × Nat)) :
    ∀ acc, zsetMapLoop it acc
      = (if it.released then [] else it.elems).foldl
          (fun m ms => goMapInsert m ms.1.string ms.2) acc := by
  rcases it with ⟨elems, released, parent⟩
  induction elems with
  | nil =>
    intro acc
    rw [zsetMapLoop]
    cases released <;> simp [RdbIterator.Next]
  | cons x xs ih =>
    intro acc
    rw [zsetMapLoop]
    cases released
    · simp [RdbIterator.Next, ih]
    · simp [RdbIterator.Next]

theorem setMapLoop_eq (it : RdbIterator RedisUnsafeSds) :
    ∀ acc, setMapLoop it acc
      = (if it.released then [] else it.elems).foldl
          (fun m x => goMapInsert m x.string true) acc := by
  rcases it with ⟨elems, released, parent⟩
  induction elems with
  | nil =>
    intro acc
    rw [setMapLoop]
    cases released <;> simp [RdbIterator.Next]
  | cons x xs ih =>
    intro acc
    rw [setMapLoop]
    cases released
    · simp [RdbIterator.Next, ih]
    · simp [RdbIterator.Next]

/-- C8: every whole-value convenience accessor equals the map/fold of the
complete drain of a fresh iterator — no separate materialization path, no
element added or skipped relative to the drain. -/
theorem accessors_equal_iterator_drain :
    (∀ o : RedisListObject,
      o.Strings = (drainIterator o.NewIterator).map RedisUnsafeSds.string)
    ∧ (∀ o : RedisHashObject,
      o.Map = (drainIterator o.NewIterator).foldl
        (fun m kv => goMapInsert m kv.1.string kv.2.string) [])
    ∧ (∀ o : RedisZsetObject,
      o.Map = (drainIterator o.NewIterator).foldl
        (fun m ms => goMapInsert m ms.1.string ms.2) [])
    ∧ (∀ o : RedisSetObject,
      o.Map = (drainIterator o.NewIterator).foldl
        (fun m x => goMapInsert m x.string true) []) := by
  refine ⟨fun o => ?_, fun o => ?_, fun o => ?_, fun o => ?_⟩
  · rw [RedisListObject.Strings, listStringsLoop_eq, drainIterator_eq]
    rfl
  · rw [RedisHashObject.Map, hashMapLoop_eq, drainIterator_eq]
  · rw [RedisZsetObject.Map, zsetMapLoop_eq, drainIterator_eq]
  · rw [RedisSetObject.Map, setMapLoop_eq, drainIterator_eq]

/-- `RedisObject.CreateDumpPayloadUnsafe` (src): wraps the byte buffer
(`Ptr`/`Len`) returned by the missing C `redisObjectCreateDumpPayload`
(modelled by `createDumpPayload`) in an sds whose integer fallback is 0. -/
def CreateDumpPayloadUnsafe (v : Value) : RedisUnsafeSds :=
  ⟨some (createDumpPayload v), 0⟩

/-- `RedisObject.CreateDumpPayload` (src): obtains the unsafe sds, copies
its content with `sds.String()`, releases the buffer (a no-op on the
returned copy), and returns the copied string. -/
def CreateDumpPayload (v : Value) : String :=
  (CreateDumpPayloadUnsafe v).string

/-- C9: the safe dump-payload accessor returns exactly the Ptr/Len byte
content of the unsafe accessor (viewed as a Go string) for every object;
both code paths carry the same payload bytes. -/
theorem createDumpPayload_safe_eq_unsafe (v : Value) :
    (CreateDumpPayloadUnsafe v).ptr = some (createDumpPayload v)
    ∧ CreateDumpPayload v = goStringOfBytes (createDumpPayload v) :=
  ⟨rfl, rfl⟩

/-- Modelled from the spec: the object-type constants behind `C.OBJ_*`
(missing C header; Redis assigns 0..6 in declaration order). -/
def OBJ_STRING : Int := 0

def OBJ_LIST : Int := 1

def OBJ_SET : Int := 2

def OBJ_ZSET : Int := 3

def OBJ_HASH : Int := 4

def OBJ_MODULE : Int := 5

def OBJ_STREAM : Int := 6

/-- Modelled from the spec: the object-encoding constants behind
`C.OBJ_ENCODING_*` (missing C header; Redis assigns 0..10 in order). -/
def OBJ_ENCODING_RAW : Int := 0

def OBJ_ENCODING_INT : Int := 1

def OBJ_ENCODING_HT : Int := 2

def OBJ_ENCODING_ZIPMAP : Int := 3

def OBJ_ENCODING_LINKEDLIST : Int := 4

def OBJ_ENCODING_ZIPLIST : Int := 5

def OBJ_ENCODING_INTSET : Int := 6

def OBJ_ENCODING_SKIPLIST : Int := 7

def OBJ_ENCODING_EMBSTR : Int := 8

def OBJ_ENCODING_QUICKLIST : Int := 9

def OBJ_ENCODING_STREAM : Int := 10

/-- `RedisType.String` (src): switch over the known type constants, with
the `fmt.Sprintf("OBJ_UNKNOWN[%d]", t)` fallback. -/
def redisTypeString (t : Int) : String :=
  if t = OBJ_STRING then "OBJ_STRING"
  else if t = OBJ_LIST then "OBJ_LIST"
  else if t = OBJ_SET then "OBJ_SET"
  else if t = OBJ_ZSET then "OBJ_ZSET"
  else if t = OBJ_HASH then "OBJ_HASH"
  else if t = OBJ_MODULE then "OBJ_MODULE"
  else if t = OBJ_STREAM then "OBJ_STREAM"
  else "OBJ_UNKNOWN[" ++ toString t ++ "]"

/-- `RedisEncoding.String` (src): switch over the known encoding constants,
with the `fmt.Sprintf("ENCODING_UNKNOWN[%d]", t)` fallback. -/
def redisEncodingString (t : Int) : String :=
  if t = OBJ_ENCODING_RAW then "ENCODING_RAW"
  else if t = OBJ_ENCODING_INT then "ENCODING_INT"
  else if t = OBJ_ENCODING_HT then "ENCODING_HT"
  else if t = OBJ_ENCODING_ZIPMAP then "ENCODING_ZIPMAP"
  else if t = OBJ_ENCODING_LINKEDLIST then "ENCODING_LINKEDLIST"
  else if t = OBJ_ENCODING_ZIPLIST then "ENCODING_ZIPLIST"
  else if t = OBJ_ENCODING_INTSET then "ENCODING_INTSET"
  else if t = OBJ_ENCODING_SKIPLIST then "ENCODING_SKIPLIST"
  else if t = OBJ_ENCODING_EMBSTR then "ENCODING_EMBSTR"
  else if t = OBJ_ENCODING_QUICKLIST then "ENCODING_QUICKLIST"
  else if t = OBJ_ENCODING_STREAM then "ENCODING_STREAM"
  else "ENCODING_UNKNOWN[" ++ toString t ++ "]"

theorem bracket_append_ne_empty (pre s : String) (hpre : 0 < pre.length) :
    pre ++ s ++ "]" ≠ "" := by
  intro h
  have hlen := congrArg String.length h
  rw [String.length_append, String.length_append] at hlen
  have h1 : ("]" : String).length = 1 := by decide
  have h0 : ("" : String).length = 0 := by decide
  rw [h1, h0] at hlen
  omega

set_option maxHeartbeats 1600000 in
/-- C10: `RedisType.String` and `RedisEncoding.String` are total — for
every integer they return a non-empty name, falling back to
`OBJ_UNKNOWN[n]` / `ENCODING_UNKNOWN[n]` on unrecognized values, and never
fail. -/
theorem type_encoding_string_total (t : Int) :
    redisTypeString t ≠ ""
    ∧ redisEncodingString t ≠ ""
    ∧ (t ∉ ([OBJ_STRING, OBJ_LIST, OBJ_SET, OBJ_ZSET, OBJ_HASH, OBJ_MODULE,
        OBJ_STREAM] : List Int) →
      redisTypeString t = "OBJ_UNKNOWN[" ++ toString t ++ "]")
    ∧ (t ∉ ([OBJ_ENCODING_RAW, OBJ_ENCODING_INT, OBJ_ENCODING_HT,
        OBJ_ENCODING_ZIPMAP, OBJ_ENCODING_LINKEDLIST, OBJ_ENCODING_ZIPLIST,
        OBJ_ENCODING_INTSET, OBJ_ENCODING_SKIPLIST, OBJ_ENCODING_EMBSTR,
        OBJ_ENCODING_QUICKLIST, OBJ_ENCODING_STREAM] : List Int) →
      redisEncodingString t = "ENCODING_UNKNOWN[" ++ toString t ++ "]") := by
  refine ⟨?_, ?_, ?_, ?_⟩
  · unfold redisTypeString
    split_ifs <;> first
      | exact bracket_append_ne_empty "OBJ_UNKNOWN[" (toString t) (by decide)
      | decide
  · unfold redisEncodingString
    split_ifs <;> first
      | exact bracket_append_ne_empty "ENCODING_UNKNOWN[" (toString t) (by decide)
      | decide
  · intro hmem
    simp only [List.mem_cons, List.not_mem_nil, or_false, not_or] at hmem
    obtain ⟨h1, h2, h3, h4, h5, h6, h7⟩ := hmem
    unfold redisTypeString
    rw [if_neg h1, if_neg h2, if_neg h3, if_neg h4, if_neg h5, if_neg h6, if_neg h7]
  · intro hmem
    simp only [List.mem_cons, List.not_mem_nil, or_false, not_or] at hmem
    obtain ⟨h1, h2, h3, h4, h5, h6, h7, h8, h9, h10, h11⟩ := hmem
    unfold redisEncodingString
    rw [if_neg h1, if_neg h2, if_neg h3, if_neg h4, if_neg h5, if_neg h6, if_neg h7,
      if_neg h8, if_neg h9, if_neg h10, if_neg h11]

/-- Witness for C10's fallback clauses at the unrecognized value 99. -/
theorem type_encoding_string_total_witness :
    redisTypeString 99 = "OBJ_UNKNOWN[99]"
    ∧ redisEncodingString 99 = "ENCODING_UNKNOWN[99]" := by
  have h := type_encoding_string_total 99
  refine ⟨?_, ?_⟩
  · have h3 := h.2.2.1 (by decide)
    rw [h3]
    decide
  · have h4 := h.2.2.2 (by decide)
    rw [h4]
    decide
